import Mathlib

/-!
Verification development for `dbsake.distutils_ext` (the `bdist_dbsakesh`
bundler).  The Python module is shallowly embedded: byte strings become
`List Nat` (one `Nat` per byte), filesystem paths become `String`s operated
on through their character lists, the `os.walk` traversal becomes an input
list of walked files, and the PEP302 loader environment of `fetch_source`
becomes an explicit `Package` record carrying each submodule's optional
source text.  Fallible code is modelled with `Option`/`Except`.
-/

namespace Dbsake

/-- Byte strings, one `Nat` per byte. -/
abbrev Bytes := List Nat

instance exceptDecEq {ε α : Type} [DecidableEq ε] [DecidableEq α] :
    DecidableEq (Except ε α)
  | .ok a, .ok b =>
    if h : a = b then .isTrue (by rw [h])
    else .isFalse (by intro hc; cases hc; exact h rfl)
  | .ok _, .error _ => .isFalse (by intro hc; cases hc)
  | .error _, .ok _ => .isFalse (by intro hc; cases hc)
  | .error e, .error f =>
    if h : e = f then .isTrue (by rw [h])
    else .isFalse (by intro hc; cases hc; exact h rfl)

/-- `lPfx p s` is true when `p` is an initial segment of `s`
(Python's `startswith` on the corresponding sequences). -/
def lPfx {α : Type} [DecidableEq α] : List α → List α → Bool
  | [], _ => true
  | _ :: _, [] => false
  | a :: as, b :: bs => a = b && lPfx as bs

/-- Byte encoding of an ASCII string: for ASCII text, `Char.toNat` per
character is exactly its UTF-8 byte sequence, which is what the Python
code manipulates. -/
def bytesOf (s : String) : Bytes := s.data.map Char.toNat

/-- Python `bytes.splitlines(True)`: split at `\n`, `\r\n` or `\r`,
keeping the line terminators. -/
def splitlinesKE : Bytes → List Bytes
  | [] => []
  | 10 :: rest => [10] :: splitlinesKE rest
  | 13 :: 10 :: rest => [13, 10] :: splitlinesKE rest
  | 13 :: rest => [13] :: splitlinesKE rest
  | c :: rest =>
    match splitlinesKE rest with
    | [] => [[c]]
    | l :: ls => (c :: l) :: ls

/-- First occurrence of `sep` in a byte string: `some (pre, post)` with the
bytes strictly before the first occurrence and the bytes just after it. -/
def partAux (sep : List Nat) : Bytes → Option (Bytes × Bytes)
  | [] => none
  | c :: rest =>
    if lPfx sep (c :: rest) then some ([], (c :: rest).drop sep.length)
    else
      match partAux sep rest with
      | some (pre, post) => some (c :: pre, post)
      | none => none

/-- Python `bytes.partition(sep)`. -/
def pyPartition (s sep : Bytes) : Bytes × Bytes × Bytes :=
  match partAux sep s with
  | some (pre, post) => (pre, sep, post)
  | none => (s, [], [])

/-- Python bytes whitespace: space, tab, newline, carriage return,
vertical tab, form feed. -/
def isWsB (c : Nat) : Bool :=
  c = 32 || c = 9 || c = 10 || c = 13 || c = 11 || c = 12

/-- Python `bytes.rstrip()`. -/
def rstripB (s : Bytes) : Bytes := (s.reverse.dropWhile isWsB).reverse

/-- Left-to-right non-overlapping replacement of a nonempty pattern (the
core of Python `bytes.replace`), structured with fuel so that the kernel
can evaluate it; the fuel never runs out when it starts at the string's
length, because every step consumes at least one byte. -/
def replGo (old new : Bytes) : Nat → Bytes → Bytes
  | _, [] => []
  | 0, s => s
  | fuel + 1, c :: rest =>
    if lPfx old (c :: rest) = true ∧ old ≠ [] then
      new ++ replGo old new fuel ((c :: rest).drop old.length)
    else
      c :: replGo old new fuel rest

/-- Python `bytes.replace(old, new)` (all occurrences; an empty pattern
interleaves `new` around every byte, as in CPython). -/
def pyReplace (s old new : Bytes) : Bytes :=
  if old = [] then new ++ (s.map (fun c => c :: new)).flatten
  else replGo old new s.length s

/-- Bytes of the marker `__version__ = ` that the bundler scans for. -/
def verMarker : Bytes := [95, 95, 118, 101, 114, 115, 105, 111, 110, 95, 95, 32, 61, 32]

/-- Bytes of the separator `\x20=\x20` used by `partition`. -/
def sepEqB : Bytes := [32, 61, 32]

example : verMarker = bytesOf "__version__ = " := by decide

example : sepEqB = bytesOf " = " := by decide

/-- The version-stamping step of `DBSakeBundler.run` (lines 157-166):
`tag = (" %s'" % self.tag).encode()`, pick the lines starting with
`__version__ = `, take `version[0]`, split at the first ` = `, `rstrip`,
drop the final character, append the tag, and replace the old value
everywhere in the buffer.  `none` models the `IndexError` raised by
`version[0]` when no version line exists (the `MissingVersionError`
of the spec). -/
def stamp (data tagB : Bytes) : Option Bytes :=
  let tagFull := 32 :: (tagB ++ [39])
  match (splitlinesKE data).filter (fun x => lPfx verMarker x) with
  | [] => none
  | v :: _ =>
    let vinfo := rstripB (pyPartition v sepEqB).2.2
    some (pyReplace data vinfo (vinfo.dropLast ++ tagFull))

example : stamp (bytesOf "__version__ = '1.2.3'\n") (bytesOf "abc")
    = some (bytesOf "__version__ = '1.2.3 abc'\n") := by decide

example : stamp (bytesOf "__version__ = '1.2.3'\n") (bytesOf "")
    = some (bytesOf "__version__ = '1.2.3 '\n") := by decide

example : stamp (bytesOf "x = 1\n") (bytesOf "abc") = none := by decide

example : stamp (bytesOf "__version__ = \x222.0\x22\n") (bytesOf "rc1")
    = some (bytesOf "__version__ = \x222.0 rc1'\n") := by decide

/-! ### The primary-tree walk (`DBSakeBundler.run`, lines 143-169)

`os.walk('dbsake')` is modelled as an input list of walked files, each
carrying its directory path, file name and content; the loop over
`filenames` is flattened into this single list, in walk order. -/

/-- One file met by the `os.walk` traversal. -/
structure WalkFile where
  dirpath : String
  name : String
  content : Bytes
deriving DecidableEq

/-- `os.path.basename`, on slash-separated paths (characters after the
last `/`). -/
def basenameOf (p : String) : String :=
  String.mk (p.data.foldl (fun acc c => if c = '/' then [] else acc ++ [c]) [])

/-- `os.path.join(dirpath, name)` for a nonempty `dirpath`, as produced
by `os.walk`. -/
def joinPath (f : WalkFile) : String := f.dirpath ++ "/" ++ f.name

/-- Python `str.endswith`, via character lists. -/
def strEnds (s suffix : String) : Bool :=
  lPfx suffix.data.reverse s.data.reverse

/-- The filter of lines 145-147: skip unless the name ends in `.py` or the
directory's basename is `templates`; then the self-exclusion of lines
150-151, where `os.path.abspath(path) == __file__` is modelled as equality
with the `selfpath` parameter. -/
def included (selfpath : String) (f : WalkFile) : Bool :=
  (strEnds f.name ".py" || basenameOf f.dirpath == "templates")
    && joinPath f != selfpath

/-- Lines 152-155: every file keeps its walk path as archive name except
`__main__.py`, which is relocated to the archive root. -/
def arcnameOf (f : WalkFile) : String :=
  if f.name != "__main__.py" then joinPath f else f.name

/-- Line 156: the stamping branch triggers on `path.endswith("dbsake/__init__.py")`. -/
def isInitPath (p : String) : Bool := strEnds p "dbsake/__init__.py"

/-- One archive entry: archive name and written bytes. -/
abbrev Entry := String × Bytes

/-- The primary-tree loop of `run` (lines 143-169): each included file is
written immediately (`archive.write`/`archive.writestr`); the init file is
stamped first.  `Except.error es` models the `IndexError`
(`MissingVersionError`) raised while stamping, with `es` the entries
already written to the archive at that moment. -/
def runTree (selfpath : String) (tagB : Bytes) : List WalkFile → Except (List Entry) (List Entry)
  | [] => .ok []
  | f :: rest =>
    if included selfpath f then
      if isInitPath (joinPath f) then
        match stamp f.content tagB with
        | none => .error []
        | some d =>
          match runTree selfpath tagB rest with
          | .ok es => .ok ((arcnameOf f, d) :: es)
          | .error es => .error ((arcnameOf f, d) :: es)
      else
        match runTree selfpath tagB rest with
        | .ok es => .ok ((arcnameOf f, f.content) :: es)
        | .error es => .error ((arcnameOf f, f.content) :: es)
    else runTree selfpath tagB rest

/-! ### The dependency resolver (`fetch_source`, lines 45-86)

The PEP302 loader environment is embedded as a `Package` record: the
package's own name and init source, plus the list that
`pkgutil.walk_packages` would produce — for each submodule its dotted
name, whether it is a package, and the source its loader returns
(`none` models `get_source` returning `None`). -/

/-- A dependency package as seen through `pkgutil`. -/
structure Package where
  name : String
  source : Bytes
  submodules : List (String × Bool × Option Bytes)
deriving DecidableEq

/-- Python `str.startswith`, via character lists. -/
def strStarts (s p : String) : Bool := lPfx p.data s.data

/-- `is_excluded` (lines 45-54): does the module name start with any
string in `excludes`? -/
def is_excluded (name : String) (excludes : List String) : Bool :=
  excludes.any (fun p => strStarts name p)

/-- `name.replace('.', '/')`: for the single-character pattern this is a
character-wise map. -/
def dotsToSlashes (name : String) : String :=
  String.mk (name.data.map (fun c => if c = '.' then '/' else c))

/-- Path derivation of lines 81-85. -/
def modulePath (name : String) (is_pkg : Bool) : String :=
  if is_pkg then dotsToSlashes name ++ "/__init__.py"
  else dotsToSlashes name ++ ".py"

/-- The submodule loop of `fetch_source` (lines 74-86): skip excluded
names, fail (`assert source is not None`, the spec's
`MissingSourceError`) on a sourceless module, otherwise yield the derived
path with the source.  The error carries the entries already yielded to
the consumer before the failure. -/
def fetchSub (excludes : List String) : List (String × Bool × Option Bytes) →
    Except (List Entry) (List Entry)
  | [] => .ok []
  | (name, is_pkg, src) :: rest =>
    if is_excluded name excludes then fetchSub excludes rest
    else
      match src with
      | none => .error []
      | some s =>
        match fetchSub excludes rest with
        | .ok es => .ok ((modulePath name is_pkg, s) :: es)
        | .error es => .error ((modulePath name is_pkg, s) :: es)

/-- `fetch_source` (lines 57-86): the package's own init entry is yielded
before the walk, so it is present even when the walk later fails. -/
def fetch_source (pkg : Package) (excludes : List String) :
    Except (List Entry) (List Entry) :=
  match fetchSub excludes pkg.submodules with
  | .ok es => .ok ((pkg.name ++ "/__init__.py", pkg.source) :: es)
  | .error es => .error ((pkg.name ++ "/__init__.py", pkg.source) :: es)

/-- The dependency loop of `run` (lines 171-173), over an explicit list of
(package, excludes) pairs standing for `self.dependencies`. -/
def runDeps : List (Package × List String) → Except (List Entry) (List Entry)
  | [] => .ok []
  | (pkg, excl) :: rest =>
    match fetch_source pkg excl with
    | .error es => .error es
    | .ok es =>
      match runDeps rest with
      | .ok es2 => .ok (es ++ es2)
      | .error es2 => .error (es ++ es2)

/-! ### The whole run (`DBSakeBundler.run`, lines 129-174) -/

/-- `errno.EEXIST` on Linux. -/
def EEXIST : Nat := 17

/-- Lines 130-134: `os.makedirs(self.dist_dir)` guarded by
`if exc.errno != errno.EEXIST: raise`.  The input is the outcome of the
`makedirs` call itself: `none` for success, `some e` for an `OSError`
with that errno. -/
def ensureDistDir : Option Nat → Except Nat Unit
  | none => .ok ()
  | some e => if e = EEXIST then .ok () else .error e

/-- How a run fails. -/
inductive RunError where
  /-- `os.makedirs` failed with an errno other than `EEXIST`; the output
  file was never opened. -/
  | oserror (errno : Nat)
  /-- Stamping raised (`MissingVersionError`); `written` are the archive
  entries emitted before the failure. -/
  | missingVersion (written : List Entry)
  /-- A dependency module had no source (`MissingSourceError`); `written`
  are the archive entries emitted before the failure. -/
  | missingSource (written : List Entry)
deriving DecidableEq

/-- `DBSakeBundler.run`: ensure the output directory, then stream the
primary tree and the dependencies into the archive.  On success the
result is the full entry list, in written order. -/
def bundlerRun (mkdirRes : Option Nat) (files : List WalkFile) (selfpath : String)
    (tagB : Bytes) (deps : List (Package × List String)) :
    Except RunError (List Entry) :=
  match ensureDistDir mkdirRes with
  | .error e => .error (.oserror e)
  | .ok _ =>
    match runTree selfpath tagB files with
    | .error es => .error (.missingVersion es)
    | .ok es =>
      match runDeps deps with
      | .error es2 => .error (.missingSource (es ++ es2))
      | .ok es2 => .ok (es ++ es2)

/-! ### Byte-level lemmas -/

lemma lPfx_self_append {α : Type} [DecidableEq α] (p s : List α) :
    lPfx p (p ++ s) = true := by
  induction p with
  | nil => rfl
  | cons a as ih => simp [lPfx, ih]

lemma lPfx_nil_right {α : Type} [DecidableEq α] (p : List α) (hp : p ≠ []) :
    lPfx p [] = false := by
  cases p with
  | nil => exact absurd rfl hp
  | cons a as => rfl

lemma splitlinesKE_cons_10 (t : Bytes) : splitlinesKE (10 :: t) = [10] :: splitlinesKE t := by
  simp [splitlinesKE]

lemma splitlinesKE_cons_1310 (t : Bytes) :
    splitlinesKE (13 :: 10 :: t) = [13, 10] :: splitlinesKE t := by
  simp [splitlinesKE]

lemma splitlinesKE_cons_13 (a : Nat) (t : Bytes) (ha : a ≠ 10) :
    splitlinesKE (13 :: a :: t) = [13] :: splitlinesKE (a :: t) := by
  rw [splitlinesKE.eq_def]
  simp [ha]

lemma splitlinesKE_cons_other_nil (c : Nat) (t : Bytes) (h10 : c ≠ 10) (h13 : c ≠ 13)
    (ht : splitlinesKE t = []) : splitlinesKE (c :: t) = [[c]] := by
  rw [splitlinesKE.eq_def]
  simp [h10, h13, ht]

lemma splitlinesKE_cons_other_cons (c : Nat) (t : Bytes) (l : Bytes) (ls : List Bytes)
    (h10 : c ≠ 10) (h13 : c ≠ 13) (ht : splitlinesKE t = l :: ls) :
    splitlinesKE (c :: t) = (c :: l) :: ls := by
  rw [splitlinesKE.eq_def]
  simp [h10, h13, ht]

lemma splitlinesKE_eq_nil (s : Bytes) (hs : splitlinesKE s = []) : s = [] := by
  cases s with
  | nil => rfl
  | cons c t =>
    rw [splitlinesKE.eq_def] at hs
    repeat' split at hs
    all_goals simp_all

lemma splitlinesKE_append (pre : Bytes) :
    ∀ rest : Bytes, pre.getLast? = some 10 →
      splitlinesKE (pre ++ rest) = splitlinesKE pre ++ splitlinesKE rest := by
  induction pre using splitlinesKE.induct with
  | case1 =>
    intro rest h
    simp at h
  | case2 t ih =>
    intro rest h
    cases t with
    | nil => simp [splitlinesKE_cons_10, splitlinesKE]
    | cons a t2 =>
      have h2 : (a :: t2).getLast? = some 10 := by
        rw [← List.getLast?_cons_cons (a := 10)]; exact h
      have ihr := ih rest h2
      rw [List.cons_append] at ihr
      rw [List.cons_append, List.cons_append, splitlinesKE_cons_10,
        splitlinesKE_cons_10, ihr]
      simp
  | case3 t ih =>
    intro rest h
    cases t with
    | nil => simp [splitlinesKE_cons_1310, splitlinesKE]
    | cons a t2 =>
      have h2 : (a :: t2).getLast? = some 10 := by
        rw [← List.getLast?_cons_cons (a := 10)]
        rw [← List.getLast?_cons_cons (a := 13)]
        exact h
      have ihr := ih rest h2
      rw [List.cons_append] at ihr
      rw [List.cons_append, List.cons_append, List.cons_append,
        splitlinesKE_cons_1310, splitlinesKE_cons_1310, ihr]
      simp
  | case4 t hside ih =>
    intro rest h
    cases t with
    | nil => simp at h
    | cons a t2 =>
      have ha : a ≠ 10 := fun hc => hside t2 (by rw [hc])
      have h2 : (a :: t2).getLast? = some 10 := by
        rw [← List.getLast?_cons_cons (a := 13)]; exact h
      have ihr := ih rest h2
      rw [List.cons_append] at ihr
      rw [List.cons_append, List.cons_append, splitlinesKE_cons_13 a _ ha,
        splitlinesKE_cons_13 a t2 ha, ihr]
      simp
  | case5 c t h10 _ h13 hnil ih =>
    intro rest h
    have ht : t = [] := splitlinesKE_eq_nil t hnil
    subst ht
    simp at h
    exact absurd h (fun hc => h10 hc)
  | case6 c t h10 _ h13 l ls hcons ih =>
    intro rest h
    have h10b : c ≠ 10 := fun hc => h10 hc
    have h13b : c ≠ 13 := fun hc => h13 hc
    cases t with
    | nil => simp [splitlinesKE] at hcons
    | cons a t2 =>
      have h2 : (a :: t2).getLast? = some 10 := by
        rw [← List.getLast?_cons_cons (a := c)]; exact h
      have ihr := ih rest h2
      rw [List.cons_append, hcons] at ihr
      rw [List.cons_append, List.cons_append,
        splitlinesKE_cons_other_cons c (a :: (t2 ++ rest)) l
          (ls ++ splitlinesKE rest) h10b h13b (by rw [ihr]; simp),
        splitlinesKE_cons_other_cons c (a :: t2) l ls h10b h13b hcons]
      simp

lemma splitlinesKE_single (w : Bytes) (hw : ∀ c ∈ w, c ≠ 10 ∧ c ≠ 13) :
    splitlinesKE (w ++ [10]) = [w ++ [10]] := by
  induction w with
  | nil => simp [splitlinesKE_cons_10, splitlinesKE]
  | cons c t ih =>
    have hc := hw c (by simp)
    have ht : ∀ x ∈ t, x ≠ 10 ∧ x ≠ 13 := fun x hx => hw x (by simp [hx])
    rw [List.cons_append,
      splitlinesKE_cons_other_cons c (t ++ [10]) (t ++ [10]) [] hc.1 hc.2 (ih ht)]

lemma pyPartition_marker (rest : Bytes) :
    (pyPartition (verMarker ++ rest) sepEqB).2.2 = rest := by
  simp [pyPartition, partAux, verMarker, sepEqB, lPfx]

lemma rstripB_concat_nl (w : Bytes) (q : Nat) (hq : isWsB q = false) :
    rstripB ((w ++ [q]) ++ [10]) = w ++ [q] := by
  have h10 : isWsB 10 = true := rfl
  simp [rstripB, List.reverse_append, List.dropWhile_cons, h10, hq]

lemma replGo_no_occ (old new : Bytes) :
    ∀ (fuel : Nat) (s : Bytes), (∀ i, lPfx old (s.drop i) = false) →
      replGo old new fuel s = s := by
  intro fuel
  induction fuel with
  | zero =>
    intro s h
    cases s <;> rfl
  | succ fuel ih =>
    intro s h
    cases s with
    | nil => rfl
    | cons c rest =>
      have h0 : lPfx old (c :: rest) = false := by
        have := h 0
        simpa using this
      rw [replGo]
      rw [if_neg (by simp [h0])]
      have hrest : ∀ i, lPfx old (rest.drop i) = false := by
        intro i
        have := h (i + 1)
        simpa [List.drop_succ_cons] using this
      rw [ih rest hrest]

lemma replGo_single (old new : Bytes) (hne : old ≠ []) :
    ∀ (A : Bytes) (B : Bytes) (fuel : Nat),
      (A ++ (old ++ B)).length ≤ fuel →
      (∀ i, lPfx old ((A ++ (old ++ B)).drop i) = true → i = A.length) →
      replGo old new fuel (A ++ (old ++ B)) = A ++ (new ++ B) := by
  intro A
  induction A with
  | nil =>
    intro B fuel hf huniq
    simp only [List.nil_append]
    cases old with
    | nil => exact absurd rfl hne
    | cons o old2 =>
      cases fuel with
      | zero => simp at hf
      | succ fuel2 =>
        rw [List.cons_append, replGo,
          if_pos ⟨by rw [← List.cons_append]; exact lPfx_self_append _ _, hne⟩]
        rw [← List.cons_append, List.drop_left]
        have hB : ∀ i, lPfx (o :: old2) (B.drop i) = false := by
          intro i
          by_cases hib : i < B.length
          · by_contra hc
            rw [Bool.not_eq_false] at hc
            have hdrop : ((o :: old2) ++ B).drop ((o :: old2).length + i) = B.drop i := by
              rw [← List.drop_drop, List.drop_left]
            have := huniq ((o :: old2).length + i) (by rw [List.nil_append, hdrop]; exact hc)
            simp at this
          · have : B.drop i = [] := List.drop_eq_nil_of_le (by omega)
            rw [this]
            exact lPfx_nil_right _ hne
        rw [replGo_no_occ (o :: old2) new fuel2 B hB]
  | cons a A2 ih =>
    intro B fuel hf huniq
    cases fuel with
    | zero => simp at hf
    | succ fuel2 =>
      rw [List.cons_append, replGo]
      rw [if_neg]
      · have huniq2 : ∀ i, lPfx old ((A2 ++ (old ++ B)).drop i) = true → i = A2.length := by
          intro i hi
          have hdrop : ((a :: A2) ++ (old ++ B)).drop (i + 1) = (A2 ++ (old ++ B)).drop i := by
            rw [List.cons_append, List.drop_succ_cons]
          have := huniq (i + 1) (by rw [hdrop]; exact hi)
          simp at this
          omega
        have hf2 : (A2 ++ (old ++ B)).length ≤ fuel2 := by
          simp at hf ⊢
          omega
        rw [ih B fuel2 hf2 huniq2]
        simp
      · intro hcond
        have := huniq 0 (by simpa [List.cons_append] using hcond.1)
        simp at this

lemma pyReplace_single (old new A B : Bytes) (hne : old ≠ [])
    (huniq : ∀ i, lPfx old ((A ++ (old ++ B)).drop i) = true → i = A.length) :
    pyReplace (A ++ (old ++ B)) old new = A ++ (new ++ B) := by
  rw [pyReplace, if_neg hne]
  exact replGo_single old new hne A B _ le_rfl huniq

/-! ### Characterization of the stamping step -/

lemma verMarker_no_nl : ∀ c ∈ verMarker, c ≠ 10 ∧ c ≠ 13 := by decide

/-- What stamping does on a well-formed buffer: `pre` is a (possibly
empty) newline-terminated chunk with no version line, then the version
line `__version__ = <v><q>\n` where `q` is the closing quote character,
then arbitrary bytes `post`.  Provided the value span `<v><q>` occurs
nowhere else in the buffer, the result keeps every byte except that the
closing quote is replaced by a space, the tag bytes, and a single-quote
byte (39) — the closing character is `39` no matter what `q` was. -/
theorem stamp_spec (pre v post tagB : Bytes) (q : Nat)
    (hq : isWsB q = false) (hq10 : q ≠ 10) (hq13 : q ≠ 13)
    (hv : ∀ c ∈ v, c ≠ 10 ∧ c ≠ 13)
    (hpre : pre = [] ∨ pre.getLast? = some 10)
    (hprelines : ∀ l ∈ splitlinesKE pre, lPfx verMarker l = false)
    (huniq : ∀ i, lPfx (v ++ [q])
        ((pre ++ verMarker ++ v ++ [q] ++ [10] ++ post).drop i) = true →
        i = pre.length + 14) :
    stamp (pre ++ verMarker ++ v ++ [q] ++ [10] ++ post) tagB
      = some (pre ++ verMarker ++ v ++ (32 :: (tagB ++ [39])) ++ [10] ++ post) := by
  have hwchars : ∀ c ∈ verMarker ++ v ++ [q], c ≠ 10 ∧ c ≠ 13 := by
    intro c hc
    simp only [List.mem_append, List.mem_singleton] at hc
    rcases hc with (h | h) | h
    · exact verMarker_no_nl c h
    · exact hv c h
    · subst h; exact ⟨hq10, hq13⟩
  have hline : splitlinesKE ((verMarker ++ v ++ [q]) ++ [10])
      = [(verMarker ++ v ++ [q]) ++ [10]] := splitlinesKE_single _ hwchars
  have hdata : pre ++ verMarker ++ v ++ [q] ++ [10] ++ post
      = pre ++ (((verMarker ++ v ++ [q]) ++ [10]) ++ post) := by
    simp [List.append_assoc]
  have hKEL : splitlinesKE (((verMarker ++ v ++ [q]) ++ [10]) ++ post)
      = [(verMarker ++ v ++ [q]) ++ [10]] ++ splitlinesKE post := by
    rw [splitlinesKE_append _ post (List.getLast?_concat _), hline]
  have hKEdata : splitlinesKE (pre ++ (((verMarker ++ v ++ [q]) ++ [10]) ++ post))
      = splitlinesKE pre ++ ([(verMarker ++ v ++ [q]) ++ [10]] ++ splitlinesKE post) := by
    rcases hpre with h | h
    · subst h; simp only [List.nil_append]
      rw [hKEL]
      simp [splitlinesKE]
    · rw [splitlinesKE_append pre _ h, hKEL]
  have hfilter : (splitlinesKE (pre ++ (((verMarker ++ v ++ [q]) ++ [10]) ++ post))).filter
        (fun x => lPfx verMarker x)
      = ((verMarker ++ v ++ [q]) ++ [10])
          :: (splitlinesKE post).filter (fun x => lPfx verMarker x) := by
    rw [hKEdata, List.filter_append, List.filter_append]
    have h1 : (splitlinesKE pre).filter (fun x => lPfx verMarker x) = [] := by
      rw [List.filter_eq_nil_iff]
      intro a ha
      simp [hprelines a ha]
    rw [h1]
    simp [List.filter, lPfx_self_append]
  have hpart : (pyPartition ((verMarker ++ v ++ [q]) ++ [10]) sepEqB).2.2
      = (v ++ [q]) ++ [10] := by
    have h2 : (verMarker ++ v ++ [q]) ++ [10] = verMarker ++ ((v ++ [q]) ++ [10]) := by
      simp [List.append_assoc]
    rw [h2, pyPartition_marker]
  have hvinfo : rstripB ((v ++ [q]) ++ [10]) = v ++ [q] := rstripB_concat_nl v q hq
  rw [hdata]
  rw [hdata] at huniq
  rw [stamp]
  rw [hfilter]
  simp only [hpart, hvinfo, List.dropLast_concat]
  have hAB : (pre ++ verMarker) ++ ((v ++ [q]) ++ ([10] ++ post))
      = pre ++ (((verMarker ++ v ++ [q]) ++ [10]) ++ post) := by
    simp [List.append_assoc]
  have hlen14 : (pre ++ verMarker).length = pre.length + 14 := by
    simp [List.length_append, verMarker]
  have hrepl : pyReplace (pre ++ (((verMarker ++ v ++ [q]) ++ [10]) ++ post)) (v ++ [q])
        (v ++ (32 :: (tagB ++ [39])))
      = (pre ++ verMarker) ++ ((v ++ (32 :: (tagB ++ [39]))) ++ ([10] ++ post)) := by
    rw [← hAB]
    refine pyReplace_single (v ++ [q]) _ (pre ++ verMarker) ([10] ++ post) (by simp) ?_
    intro i hi
    rw [hAB] at hi
    rw [hlen14]
    exact huniq i hi
  rw [hrepl]
  simp [List.append_assoc]

/-- An index where a nonempty pattern matches is inside the string. -/
lemma lPfx_occ_lt (old s : Bytes) (hne : old ≠ []) (i : Nat)
    (h : lPfx old (s.drop i) = true) : i < s.length := by
  by_contra hc
  rw [List.drop_eq_nil_of_le (by omega), lPfx_nil_right old hne] at h
  cases h

/-! ### Claims C1, C2, C7: the Version Stamper -/

/-- C1 counterexample: stamping with an empty tag does not return the
input unchanged; on `__version__ = '1.2.3'\n` it produces
`__version__ = '1.2.3 '\n`, a trailing-space artifact inside the
version literal. -/
theorem C1_counterexample :
    stamp (bytesOf "__version__ = '1.2.3'\n") []
        ≠ some (bytesOf "__version__ = '1.2.3'\n") ∧
      stamp (bytesOf "__version__ = '1.2.3'\n") []
        = some (bytesOf "__version__ = '1.2.3 '\n") :=
  ⟨by decide, by decide⟩

/-- C1 (amended): for every init-file buffer containing a version line,
stamping with an empty tag still rewrites the version literal — it drops
the closing quote and appends a space plus a single quote, so the result
contains a trailing space inside the literal and is never byte-for-byte
equal to the input. -/
theorem C1_empty_tag_inserts_space (pre v post : Bytes) (q : Nat)
    (hq : isWsB q = false) (hq10 : q ≠ 10) (hq13 : q ≠ 13)
    (hv : ∀ c ∈ v, c ≠ 10 ∧ c ≠ 13)
    (hpre : pre = [] ∨ pre.getLast? = some 10)
    (hprelines : ∀ l ∈ splitlinesKE pre, lPfx verMarker l = false)
    (huniq : ∀ i, i < (pre ++ verMarker ++ v ++ [q] ++ [10] ++ post).length →
        lPfx (v ++ [q]) ((pre ++ verMarker ++ v ++ [q] ++ [10] ++ post).drop i) = true →
        i = pre.length + 14) :
    stamp (pre ++ verMarker ++ v ++ [q] ++ [10] ++ post) []
        = some (pre ++ verMarker ++ v ++ [32, 39] ++ [10] ++ post) ∧
      stamp (pre ++ verMarker ++ v ++ [q] ++ [10] ++ post) []
        ≠ some (pre ++ verMarker ++ v ++ [q] ++ [10] ++ post) := by
  have huniq2 : ∀ i, lPfx (v ++ [q])
      ((pre ++ verMarker ++ v ++ [q] ++ [10] ++ post).drop i) = true →
      i = pre.length + 14 := by
    intro i hocc
    exact huniq i (lPfx_occ_lt _ _ (by simp) i hocc) hocc
  have h1 := stamp_spec pre v post [] q hq hq10 hq13 hv hpre hprelines huniq2
  constructor
  · rw [h1]
    simp
  · rw [h1]
    intro hcontra
    have heq := Option.some.inj hcontra
    have hlen := congrArg List.length heq
    simp [List.length_append] at hlen

/-- C2: on a buffer containing the version line `__version__ = '1.2.3'`
(with no earlier version line and no other occurrence of the value span
`'1.2.3'`), stamping with tag `abc` yields the buffer with that one span
rewritten to `'1.2.3 abc'` and every byte outside the span — line
endings and surrounding code included — unchanged. -/
theorem C2_tag_roundtrip (pre post : Bytes)
    (hpre : pre = [] ∨ pre.getLast? = some 10)
    (hprelines : ∀ l ∈ splitlinesKE pre, lPfx verMarker l = false)
    (huniq : ∀ i, i < (pre ++ bytesOf "__version__ = '1.2.3'\n" ++ post).length →
        lPfx (bytesOf "'1.2.3'")
          ((pre ++ bytesOf "__version__ = '1.2.3'\n" ++ post).drop i) = true →
        i = pre.length + 14) :
    stamp (pre ++ bytesOf "__version__ = '1.2.3'\n" ++ post) (bytesOf "abc")
      = some (pre ++ bytesOf "__version__ = '1.2.3 abc'\n" ++ post) := by
  have hW : bytesOf "__version__ = '1.2.3'\n"
      = verMarker ++ (bytesOf "'1.2.3" ++ ([39] ++ [10])) := by decide
  have hW2 : bytesOf "__version__ = '1.2.3 abc'\n"
      = verMarker ++ (bytesOf "'1.2.3" ++ ((32 :: (bytesOf "abc" ++ [39])) ++ [10])) := by
    decide
  have hL : pre ++ bytesOf "__version__ = '1.2.3'\n" ++ post
      = pre ++ verMarker ++ bytesOf "'1.2.3" ++ [39] ++ [10] ++ post := by
    rw [hW]; simp [List.append_assoc]
  have hR : pre ++ bytesOf "__version__ = '1.2.3 abc'\n" ++ post
      = pre ++ verMarker ++ bytesOf "'1.2.3" ++ (32 :: (bytesOf "abc" ++ [39])) ++ [10] ++ post := by
    rw [hW2]; simp [List.append_assoc]
  have hspan : bytesOf "'1.2.3'" = bytesOf "'1.2.3" ++ [39] := by decide
  rw [hL, hR]
  rw [hL, hspan] at huniq
  apply stamp_spec pre (bytesOf "'1.2.3") post (bytesOf "abc") 39 (by decide)
    (by decide) (by decide) (by decide) hpre hprelines
  intro i hocc
  exact huniq i (lPfx_occ_lt _ _ (by simp) i hocc) hocc

/-- C2 witness: the concrete roundtrip on the bare version line followed
by one more code line. -/
theorem C2_witness :
    stamp (([] : Bytes) ++ bytesOf "__version__ = '1.2.3'\n" ++ bytesOf "x = 2\n")
        (bytesOf "abc")
      = some (([] : Bytes) ++ bytesOf "__version__ = '1.2.3 abc'\n" ++ bytesOf "x = 2\n") :=
  C2_tag_roundtrip [] (bytesOf "x = 2\n") (Or.inl rfl) (by decide) (by decide)

/-- C7 counterexample: on a version literal closed by a double quote,
stamping with tag `rc1` does not re-append the same closing quote
character; the code appends a single quote (byte 39), producing the
mismatched literal `"2.0 rc1'`. -/
theorem C7_counterexample :
    stamp (bytesOf "__version__ = \x222.0\x22\n") (bytesOf "rc1")
        ≠ some (bytesOf "__version__ = \x222.0 rc1\x22\n") ∧
      stamp (bytesOf "__version__ = \x222.0\x22\n") (bytesOf "rc1")
        = some (bytesOf "__version__ = \x222.0 rc1'\n") :=
  ⟨by decide, by decide⟩

/-- C7 (amended): stamping removes the literal's final character (its
closing quote, whichever character `q` it is) and appends a single
space, the tag text, and a single-quote byte 39 — not the original
closing quote character. -/
theorem C7_closing_quote_single (pre v post tagB : Bytes) (q : Nat)
    (hq : isWsB q = false) (hq10 : q ≠ 10) (hq13 : q ≠ 13)
    (hv : ∀ c ∈ v, c ≠ 10 ∧ c ≠ 13)
    (hpre : pre = [] ∨ pre.getLast? = some 10)
    (hprelines : ∀ l ∈ splitlinesKE pre, lPfx verMarker l = false)
    (huniq : ∀ i, i < (pre ++ verMarker ++ v ++ [q] ++ [10] ++ post).length →
        lPfx (v ++ [q]) ((pre ++ verMarker ++ v ++ [q] ++ [10] ++ post).drop i) = true →
        i = pre.length + 14) :
    stamp (pre ++ verMarker ++ v ++ [q] ++ [10] ++ post) tagB
      = some (pre ++ verMarker ++ v ++ ([32] ++ tagB ++ [39]) ++ [10] ++ post) := by
  have huniq2 : ∀ i, lPfx (v ++ [q])
      ((pre ++ verMarker ++ v ++ [q] ++ [10] ++ post).drop i) = true →
      i = pre.length + 14 := by
    intro i hocc
    exact huniq i (lPfx_occ_lt _ _ (by simp) i hocc) hocc
  have h1 := stamp_spec pre v post tagB q hq hq10 hq13 hv hpre hprelines huniq2
  rw [h1]
  simp [List.append_assoc]

/-- C7 witness: the amended statement at the concrete double-quoted
literal `"2.0"` with tag `rc1`. -/
theorem C7_witness :
    stamp (([] : Bytes) ++ verMarker ++ bytesOf "\x222.0" ++ [34] ++ [10] ++ [])
        (bytesOf "rc1")
      = some (([] : Bytes) ++ verMarker ++ bytesOf "\x222.0"
          ++ ([32] ++ bytesOf "rc1" ++ [39]) ++ [10] ++ []) :=
  C7_closing_quote_single [] (bytesOf "\x222.0") [] (bytesOf "rc1") 34 (by decide)
    (by decide) (by decide) (by decide) (Or.inl rfl) (by decide) (by decide)

/-- C1 witness: the amended statement at the concrete single-quoted
literal `'1.2.3'` with the empty tag. -/
theorem C1_witness :
    stamp (([] : Bytes) ++ verMarker ++ bytesOf "'1.2.3" ++ [39] ++ [10] ++ []) []
        = some (([] : Bytes) ++ verMarker ++ bytesOf "'1.2.3" ++ [32, 39] ++ [10] ++ []) ∧
      stamp (([] : Bytes) ++ verMarker ++ bytesOf "'1.2.3" ++ [39] ++ [10] ++ []) []
        ≠ some (([] : Bytes) ++ verMarker ++ bytesOf "'1.2.3" ++ [39] ++ [10] ++ []) :=
  C1_empty_tag_inserts_space [] (bytesOf "'1.2.3") [] 39 (by decide) (by decide)
    (by decide) (by decide) (Or.inl rfl) (by decide) (by decide)

/-! ### Lemmas on the primary-tree walk -/

lemma runTree_cons_skip (sp : String) (tagB : Bytes) (f : WalkFile) (rest : List WalkFile)
    (hincl : included sp f = false) : runTree sp tagB (f :: rest) = runTree sp tagB rest := by
  simp [runTree, hincl]

lemma runTree_cons_plain (sp : String) (tagB : Bytes) (f : WalkFile) (rest : List WalkFile)
    (hincl : included sp f = true) (hinit : isInitPath (joinPath f) = false) :
    runTree sp tagB (f :: rest) =
      match runTree sp tagB rest with
      | .ok es => .ok ((arcnameOf f, f.content) :: es)
      | .error es => .error ((arcnameOf f, f.content) :: es) := by
  simp [runTree, hincl, hinit]

lemma runTree_cons_init_none (sp : String) (tagB : Bytes) (f : WalkFile)
    (rest : List WalkFile) (hincl : included sp f = true)
    (hinit : isInitPath (joinPath f) = true) (hstamp : stamp f.content tagB = none) :
    runTree sp tagB (f :: rest) = .error [] := by
  simp [runTree, hincl, hinit, hstamp]

lemma runTree_cons_init_some (sp : String) (tagB : Bytes) (f : WalkFile)
    (rest : List WalkFile) (d : Bytes) (hincl : included sp f = true)
    (hinit : isInitPath (joinPath f) = true) (hstamp : stamp f.content tagB = some d) :
    runTree sp tagB (f :: rest) =
      match runTree sp tagB rest with
      | .ok es => .ok ((arcnameOf f, d) :: es)
      | .error es => .error ((arcnameOf f, d) :: es) := by
  simp [runTree, hincl, hinit, hstamp]

lemma runTree_append (sp : String) (tagB : Bytes) (xs ys : List WalkFile) :
    runTree sp tagB (xs ++ ys) =
      match runTree sp tagB xs with
      | .error es => .error es
      | .ok es =>
        match runTree sp tagB ys with
        | .ok es2 => .ok (es ++ es2)
        | .error es2 => .error (es ++ es2) := by
  induction xs with
  | nil =>
    cases h : runTree sp tagB ys <;> simp [runTree, h]
  | cons f rest ih =>
    rw [List.cons_append]
    by_cases hincl : included sp f = true
    · by_cases hinit : isInitPath (joinPath f) = true
      · cases hstamp : stamp f.content tagB with
        | none =>
          rw [runTree_cons_init_none sp tagB f (rest ++ ys) hincl hinit hstamp,
            runTree_cons_init_none sp tagB f rest hincl hinit hstamp]
        | some d =>
          rw [runTree_cons_init_some sp tagB f (rest ++ ys) d hincl hinit hstamp,
            runTree_cons_init_some sp tagB f rest d hincl hinit hstamp, ih]
          cases runTree sp tagB rest <;> cases runTree sp tagB ys <;> simp
      · rw [Bool.not_eq_true] at hinit
        rw [runTree_cons_plain sp tagB f (rest ++ ys) hincl hinit,
          runTree_cons_plain sp tagB f rest hincl hinit, ih]
        cases runTree sp tagB rest <;> cases runTree sp tagB ys <;> simp
    · rw [Bool.not_eq_true] at hincl
      rw [runTree_cons_skip sp tagB f (rest ++ ys) hincl,
        runTree_cons_skip sp tagB f rest hincl, ih]

/-- The entry a walked file contributes, if any: the closed-form
counterpart of one `runTree` step. -/
def emit (selfpath : String) (tagB : Bytes) (f : WalkFile) : Option Entry :=
  if included selfpath f then
    if isInitPath (joinPath f) then
      (stamp f.content tagB).map (fun d => (arcnameOf f, d))
    else some (arcnameOf f, f.content)
  else none

lemma runTree_eq_filterMap (sp : String) (tagB : Bytes) (files : List WalkFile)
    (h : ∀ f ∈ files, included sp f = true → isInitPath (joinPath f) = true →
      (stamp f.content tagB).isSome = true) :
    runTree sp tagB files = .ok (files.filterMap (emit sp tagB)) := by
  induction files with
  | nil => rfl
  | cons f rest ih =>
    have hrest : ∀ g ∈ rest, included sp g = true → isInitPath (joinPath g) = true →
        (stamp g.content tagB).isSome = true :=
      fun g hg => h g (by simp [hg])
    by_cases hincl : included sp f = true
    · by_cases hinit : isInitPath (joinPath f) = true
      · rcases Option.isSome_iff_exists.mp (h f (by simp) hincl hinit) with ⟨d, hd⟩
        simp [runTree, emit, hincl, hinit, hd, ih hrest, List.filterMap_cons]
      · simp [runTree, emit, hincl, hinit, ih hrest, List.filterMap_cons]
    · simp [runTree, emit, hincl, ih hrest, List.filterMap_cons]

/-! ### Claim C5: the Tree Filter -/

/-- C5: provided every walked init file stamps successfully, the run's
primary-tree entries are exactly the per-file `emit` results, and a
walked file contributes an entry if and only if its name ends in `.py`
or its immediate directory's basename is `templates` — except the
bundler's own source file, which never contributes even though it
matches the rule. -/
theorem C5_tree_filter (selfpath : String) (tagB : Bytes) (files : List WalkFile)
    (h : ∀ f ∈ files, included selfpath f = true → isInitPath (joinPath f) = true →
      (stamp f.content tagB).isSome = true) :
    runTree selfpath tagB files = .ok (files.filterMap (emit selfpath tagB)) ∧
      ∀ f ∈ files, (emit selfpath tagB f).isSome = true ↔
        ((strEnds f.name ".py" = true ∨ basenameOf f.dirpath = "templates")
          ∧ joinPath f ≠ selfpath) := by
  refine ⟨runTree_eq_filterMap selfpath tagB files h, ?_⟩
  intro f hf
  have hiff : (emit selfpath tagB f).isSome = true ↔ included selfpath f = true := by
    unfold emit
    by_cases hincl : included selfpath f = true
    · by_cases hinit : isInitPath (joinPath f) = true
      · rcases Option.isSome_iff_exists.mp (h f hf hincl hinit) with ⟨d, hd⟩
        simp [hincl, hinit, hd]
      · simp [hincl, hinit]
    · simp [hincl]
  rw [hiff]
  unfold included
  simp [Bool.and_eq_true, Bool.or_eq_true, bne_iff_ne, beq_iff_eq]

/-- C5 witness: a concrete walk with a source file, a template resource,
a non-source file and the bundler's own file. -/
theorem C5_witness :
    runTree "dbsake/distutils_ext.py" []
        [⟨"dbsake", "cli.py", [1]⟩,
         ⟨"dbsake/templates", "my.cnf", [2]⟩,
         ⟨"dbsake", "README", [3]⟩,
         ⟨"dbsake", "distutils_ext.py", [4]⟩]
      = .ok ([⟨"dbsake", "cli.py", [1]⟩,
         ⟨"dbsake/templates", "my.cnf", [2]⟩,
         ⟨"dbsake", "README", [3]⟩,
         ⟨"dbsake", "distutils_ext.py", [4]⟩].filterMap
          (emit "dbsake/distutils_ext.py" [])) ∧
      ∀ f ∈ [⟨"dbsake", "cli.py", [1]⟩,
         ⟨"dbsake/templates", "my.cnf", [2]⟩,
         ⟨"dbsake", "README", [3]⟩,
         (⟨"dbsake", "distutils_ext.py", [4]⟩ : WalkFile)],
        (emit "dbsake/distutils_ext.py" [] f).isSome = true ↔
          ((strEnds f.name ".py" = true ∨ basenameOf f.dirpath = "templates")
            ∧ joinPath f ≠ "dbsake/distutils_ext.py") :=
  C5_tree_filter "dbsake/distutils_ext.py" []
    [⟨"dbsake", "cli.py", [1]⟩,
     ⟨"dbsake/templates", "my.cnf", [2]⟩,
     ⟨"dbsake", "README", [3]⟩,
     ⟨"dbsake", "distutils_ext.py", [4]⟩] (by decide)

/-! ### Claims C3 and C9: run-level error handling -/

/-- C3 counterexample: with the walk meeting `dbsake/cli.py` before the
init file, the missing-version failure is raised after `cli.py` was
already written, so the entries-written-so-far list is not empty as the
claim demands. -/
theorem C3_counterexample :
    bundlerRun none
        [⟨"dbsake", "cli.py", bytesOf "x = 1\n"⟩,
         ⟨"dbsake", "__init__.py", bytesOf "import os\n"⟩]
        "dbsake/distutils_ext.py" [] []
      = .error (.missingVersion [("dbsake/cli.py", bytesOf "x = 1\n")]) ∧
      [("dbsake/cli.py", bytesOf "x = 1\n")] ≠ ([] : List Entry) :=
  ⟨by decide, by decide⟩

/-- C3 (amended): when the walked init file has zero `__version__ = `
lines, the run fails with the missing-version error; the entries written
before the init file in walk order are already in the archive, and no
later primary entries and no dependency entries are ever written. -/
theorem C3_missing_version_aborts (mkdirRes : Option Nat) (selfpath : String)
    (tagB : Bytes) (deps : List (Package × List String)) (pre post : List WalkFile)
    (f : WalkFile) (es : List Entry)
    (hmk : ensureDistDir mkdirRes = .ok ())
    (hpre : runTree selfpath tagB pre = .ok es)
    (hincl : included selfpath f = true)
    (hinit : isInitPath (joinPath f) = true)
    (hnover : (splitlinesKE f.content).filter (fun x => lPfx verMarker x) = []) :
    bundlerRun mkdirRes (pre ++ f :: post) selfpath tagB deps
      = .error (.missingVersion es) := by
  have hstamp : stamp f.content tagB = none := by
    rw [stamp, hnover]
  have htree : runTree selfpath tagB (pre ++ f :: post) = .error es := by
    have hstep : runTree selfpath tagB (f :: post) = .error [] :=
      runTree_cons_init_none selfpath tagB f post hincl hinit hstamp
    rw [runTree_append, hpre, hstep]
    simp
  simp [bundlerRun, hmk, htree]

/-- C3 witness: the amended statement at the concrete two-file walk of
the counterexample. -/
theorem C3_witness :
    bundlerRun none
        ([⟨"dbsake", "cli.py", bytesOf "x = 1\n"⟩]
          ++ ⟨"dbsake", "__init__.py", bytesOf "import os\n"⟩ :: [])
        "dbsake/distutils_ext.py" [] []
      = .error (.missingVersion [("dbsake/cli.py", bytesOf "x = 1\n")]) :=
  C3_missing_version_aborts none "dbsake/distutils_ext.py" [] []
    [⟨"dbsake", "cli.py", bytesOf "x = 1\n"⟩] []
    ⟨"dbsake", "__init__.py", bytesOf "import os\n"⟩
    [("dbsake/cli.py", bytesOf "x = 1\n")]
    (by decide) (by decide) (by decide) (by decide) (by decide)

/-- C9: output-directory creation is idempotent — an `EEXIST` failure of
`makedirs` leaves the run identical to a successful creation, while any
other errno aborts the run with that error, before any archive entry or
output byte exists. -/
theorem C9_makedirs_idempotent (files : List WalkFile) (selfpath : String)
    (tagB : Bytes) (deps : List (Package × List String)) :
    bundlerRun (some EEXIST) files selfpath tagB deps
        = bundlerRun none files selfpath tagB deps ∧
      ∀ e, e ≠ EEXIST →
        bundlerRun (some e) files selfpath tagB deps = .error (.oserror e) := by
  constructor
  · rfl
  · intro e he
    simp [bundlerRun, ensureDistDir, he]

/-- C9 witness: the concrete run tolerates errno 17 and aborts on
errno 13 (`EACCES`). -/
theorem C9_witness :
    (bundlerRun (some EEXIST) [] "s" [] [] = bundlerRun none [] "s" [] []) ∧
      (13 ≠ EEXIST ∧ bundlerRun (some 13) [] "s" [] [] = .error (.oserror 13)) :=
  ⟨(C9_makedirs_idempotent [] "s" [] []).1,
   by decide,
   (C9_makedirs_idempotent [] "s" [] []).2 13 (by decide)⟩

/-! ### Lemmas on the dependency resolver -/

lemma fetchSub_all_excluded (excludes : List String)
    (mods : List (String × Bool × Option Bytes)) (h : "" ∈ excludes) :
    fetchSub excludes mods = .ok [] := by
  induction mods with
  | nil => rfl
  | cons m rest ih =>
    obtain ⟨name, is_pkg, src⟩ := m
    have hexc : is_excluded name excludes = true := by
      rw [is_excluded, List.any_eq_true]
      exact ⟨"", h, rfl⟩
    simp [fetchSub, hexc, ih]

lemma fetchSub_eq_filterMap (excludes : List String)
    (mods : List (String × Bool × Option Bytes))
    (h : ∀ m ∈ mods, is_excluded m.1 excludes = false → m.2.2 ≠ none) :
    fetchSub excludes mods = .ok (mods.filterMap (fun m =>
      if is_excluded m.1 excludes then none
      else m.2.2.map (fun s => (modulePath m.1 m.2.1, s)))) := by
  induction mods with
  | nil => rfl
  | cons m rest ih =>
    obtain ⟨name, is_pkg, src⟩ := m
    have hrest : ∀ g ∈ rest, is_excluded g.1 excludes = false → g.2.2 ≠ none :=
      fun g hg => h g (List.mem_cons_of_mem _ hg)
    by_cases hexc : is_excluded name excludes = true
    · simp [fetchSub, hexc, ih hrest, List.filterMap_cons]
    · rw [Bool.not_eq_true] at hexc
      cases hsrc : src with
      | none =>
        exact absurd hsrc (h (name, is_pkg, src) (by simp) hexc)
      | some s =>
        simp [fetchSub, hexc, hsrc, ih hrest, List.filterMap_cons]

lemma fetchSub_error_of (excludes : List String)
    (mods : List (String × Bool × Option Bytes)) (m : String × Bool × Option Bytes)
    (hm : m ∈ mods) (hexc : is_excluded m.1 excludes = false) (hsrc : m.2.2 = none) :
    ∃ es, fetchSub excludes mods = .error es := by
  induction mods with
  | nil => cases hm
  | cons g rest ih =>
    obtain ⟨name, is_pkg, src⟩ := g
    by_cases hgexc : is_excluded name excludes = true
    · rcases List.mem_cons.mp hm with heq | hmr
      · rw [heq] at hexc
        simp [hgexc] at hexc
      · rcases ih hmr with ⟨es, hes⟩
        exact ⟨es, by simp [fetchSub, hgexc, hes]⟩
    · rw [Bool.not_eq_true] at hgexc
      cases hsrcg : src with
      | none => exact ⟨[], by simp [fetchSub, hgexc, hsrcg]⟩
      | some s =>
        rcases List.mem_cons.mp hm with heq | hmr
        · rw [heq] at hsrc
          simp [hsrcg] at hsrc
        · rcases ih hmr with ⟨es, hes⟩
          exact ⟨(modulePath name is_pkg, s) :: es,
            by simp [fetchSub, hgexc, hsrcg, hes]⟩

lemma runDeps_append (xs ys : List (Package × List String)) :
    runDeps (xs ++ ys) =
      match runDeps xs with
      | .error es => .error es
      | .ok es =>
        match runDeps ys with
        | .ok es2 => .ok (es ++ es2)
        | .error es2 => .error (es ++ es2) := by
  induction xs with
  | nil => cases h : runDeps ys <;> simp [runDeps, h]
  | cons p rest ih =>
    obtain ⟨pk, ex⟩ := p
    rw [List.cons_append]
    cases hf : fetch_source pk ex with
    | error es => simp [runDeps, hf]
    | ok es =>
      have hstep : runDeps ((pk, ex) :: (rest ++ ys)) =
          match runDeps (rest ++ ys) with
          | .ok es2 => .ok (es ++ es2)
          | .error es2 => .error (es ++ es2) := by
        simp [runDeps, hf]
      have hstep2 : runDeps ((pk, ex) :: rest) =
          match runDeps rest with
          | .ok es2 => .ok (es ++ es2)
          | .error es2 => .error (es ++ es2) := by
        simp [runDeps, hf]
      rw [hstep, hstep2, ih]
      cases runDeps rest <;> cases runDeps ys <;> simp

/-! ### Claims C4, C10, C6: the Module Source Resolver -/

/-- C4: for every resolvable package and exclusion list (all non-excluded
submodules carrying source), the resolver yields first the package's own
`<name>/__init__.py` entry, then exactly one entry per non-excluded
discovered submodule, with the path obtained by turning dots into
slashes and appending `/__init__.py` for packages and `.py` for plain
modules. -/
theorem C4_resolver (pkg : Package) (excludes : List String)
    (h : ∀ m ∈ pkg.submodules, is_excluded m.1 excludes = false → m.2.2 ≠ none) :
    fetch_source pkg excludes = .ok ((pkg.name ++ "/__init__.py", pkg.source) ::
      pkg.submodules.filterMap (fun m =>
        if is_excluded m.1 excludes then none
        else m.2.2.map (fun s => (modulePath m.1 m.2.1, s)))) := by
  simp [fetch_source, fetchSub_eq_filterMap excludes pkg.submodules h]

/-- C4 witness: a package `a` with plain submodules `a.b`, `a.c` and no
exclusions yields exactly `a/__init__.py`, `a/b.py`, `a/c.py`. -/
theorem C4_witness :
    fetch_source ⟨"a", [65], [("a.b", false, some [66]), ("a.c", false, some [67])]⟩ []
      = .ok [("a/__init__.py", [65]), ("a/b.py", [66]), ("a/c.py", [67])] := by
  rw [C4_resolver ⟨"a", [65], [("a.b", false, some [66]), ("a.c", false, some [67])]⟩ []
    (by decide)]
  decide

/-- C10: the exclusion check never applies to the initial
`<package_name>/__init__.py` entry: it heads the yielded sequence for
every exclusion list (even when the walk later fails), and with the
empty-string prefix — which excludes every submodule — the init entry is
still yielded, alone. -/
theorem C10_init_unconditional (pkg : Package) (excludes : List String) :
    (∃ rest,
        fetch_source pkg excludes
            = .ok ((pkg.name ++ "/__init__.py", pkg.source) :: rest)
          ∨ fetch_source pkg excludes
            = .error ((pkg.name ++ "/__init__.py", pkg.source) :: rest))
      ∧ ("" ∈ excludes →
          fetch_source pkg excludes = .ok [(pkg.name ++ "/__init__.py", pkg.source)]) := by
  constructor
  · cases h : fetchSub excludes pkg.submodules with
    | ok es => exact ⟨es, Or.inl (by simp [fetch_source, h])⟩
    | error es => exact ⟨es, Or.inr (by simp [fetch_source, h])⟩
  · intro h
    simp [fetch_source, fetchSub_all_excluded excludes pkg.submodules h]

/-- C10 witness: with excludes `[""]` the package still yields its init
entry, and nothing else — even though one submodule has no source. -/
theorem C10_witness :
    (∃ rest,
        fetch_source ⟨"a", [65], [("a.b", false, some [66]), ("a.c", false, none)]⟩ [""]
            = .ok (("a" ++ "/__init__.py", [65]) :: rest)
          ∨ fetch_source ⟨"a", [65], [("a.b", false, some [66]), ("a.c", false, none)]⟩ [""]
            = .error (("a" ++ "/__init__.py", [65]) :: rest))
      ∧ ("" ∈ [""] →
          fetch_source ⟨"a", [65], [("a.b", false, some [66]), ("a.c", false, none)]⟩ [""]
            = .ok [("a" ++ "/__init__.py", [65])]) :=
  C10_init_unconditional ⟨"a", [65], [("a.b", false, some [66]), ("a.c", false, none)]⟩ [""]

/-- C6: if any non-excluded submodule of a dependency has no retrievable
source, resolving that dependency fails and the whole run aborts with
the missing-source error — the module is neither skipped nor written as
an empty entry. -/
theorem C6_missing_source_aborts (mkdirRes : Option Nat) (files : List WalkFile)
    (selfpath : String) (tagB : Bytes) (dpre dpost : List (Package × List String))
    (pkg : Package) (excl : List String) (tes des : List Entry)
    (m : String × Bool × Option Bytes)
    (hmk : ensureDistDir mkdirRes = .ok ())
    (htree : runTree selfpath tagB files = .ok tes)
    (hdpre : runDeps dpre = .ok des)
    (hm : m ∈ pkg.submodules) (hexc : is_excluded m.1 excl = false)
    (hsrc : m.2.2 = none) :
    ∃ es, bundlerRun mkdirRes files selfpath tagB (dpre ++ (pkg, excl) :: dpost)
      = .error (.missingSource es) := by
  rcases fetchSub_error_of excl pkg.submodules m hm hexc hsrc with ⟨es0, hes0⟩
  have hfs : fetch_source pkg excl
      = .error ((pkg.name ++ "/__init__.py", pkg.source) :: es0) := by
    simp [fetch_source, hes0]
  have hdeps : runDeps (dpre ++ (pkg, excl) :: dpost)
      = .error (des ++ ((pkg.name ++ "/__init__.py", pkg.source) :: es0)) := by
    rw [runDeps_append, hdpre]
    have hstep : runDeps ((pkg, excl) :: dpost)
        = .error ((pkg.name ++ "/__init__.py", pkg.source) :: es0) := by
      simp [runDeps, hfs]
    rw [hstep]
  exact ⟨tes ++ (des ++ ((pkg.name ++ "/__init__.py", pkg.source) :: es0)),
    by simp [bundlerRun, hmk, htree, hdeps]⟩

/-- C6 witness: a run whose single dependency has the sourceless plain
module `a.c` aborts with the missing-source error. -/
theorem C6_witness :
    ∃ es, bundlerRun none [] "s" []
        ([] ++ (⟨"a", [65], [("a.b", false, some [66]), ("a.c", false, none)]⟩, ([] : List String)) :: [])
      = .error (.missingSource es) :=
  C6_missing_source_aborts none [] "s" [] [] []
    ⟨"a", [65], [("a.b", false, some [66]), ("a.c", false, none)]⟩ [] [] []
    ("a.c", false, none) (by decide) (by decide) (by decide) (by decide)
    (by decide) (by decide)

/-! ### Claim C8: archive-path uniqueness -/

lemma filterMap_emit_map_fst (sp : String) (tagB : Bytes) (files : List WalkFile)
    (hstamp : ∀ f ∈ files, included sp f = true → isInitPath (joinPath f) = true →
      (stamp f.content tagB).isSome = true) :
    (files.filterMap (emit sp tagB)).map Prod.fst
      = (files.filter (fun f => included sp f)).map arcnameOf := by
  induction files with
  | nil => rfl
  | cons f rest ih =>
    have hrest : ∀ g ∈ rest, included sp g = true → isInitPath (joinPath g) = true →
        (stamp g.content tagB).isSome = true :=
      fun g hg => hstamp g (by simp [hg])
    by_cases hincl : included sp f = true
    · by_cases hinit : isInitPath (joinPath f) = true
      · rcases Option.isSome_iff_exists.mp (hstamp f (by simp) hincl hinit) with ⟨d, hd⟩
        simp [emit, hincl, hinit, hd, List.filterMap_cons, List.filter_cons, ih hrest]
      · simp [emit, hincl, hinit, List.filterMap_cons, List.filter_cons, ih hrest]
    · simp [emit, hincl, List.filterMap_cons, List.filter_cons, ih hrest]

/-- C8 counterexample: a walk holding two files named `__main__.py` (one
nested) relocates both to the archive root, so two entries share the
archive path `__main__.py` and the path list is not duplicate-free. -/
theorem C8_counterexample :
    bundlerRun none
        [⟨"dbsake", "__main__.py", [1]⟩, ⟨"dbsake/x", "__main__.py", [2]⟩]
        "dbsake/distutils_ext.py" [] []
      = .ok [("__main__.py", [1]), ("__main__.py", [2])] ∧
      ¬ (([("__main__.py", [1]), ("__main__.py", [2])] : List Entry).map Prod.fst).Nodup :=
  ⟨by decide, by decide⟩

/-- C8 (amended): the archive paths of a whole run are pairwise distinct
provided the walked inclusion set has pairwise-distinct paths, at most
one included file named `__main__.py`, no included path equal to the
bare name `__main__.py`, and dependency entry paths duplicate-free and
disjoint from the primary archive names; without the `__main__.py`
conditions the relocation to the archive root can collide. -/
theorem C8_unique_paths (files : List WalkFile) (selfpath : String) (tagB : Bytes)
    (deps : List (Package × List String)) (des : List Entry)
    (hstamp : ∀ f ∈ files, included selfpath f = true → isInitPath (joinPath f) = true →
      (stamp f.content tagB).isSome = true)
    (hdeps : runDeps deps = .ok des)
    (hpaths : (files.filter (fun f => included selfpath f)).Pairwise
      (fun f g => joinPath f ≠ joinPath g))
    (hmain : (files.filter (fun f => included selfpath f)).Pairwise
      (fun f g => ¬(f.name = "__main__.py" ∧ g.name = "__main__.py")))
    (hnotmain : ∀ f ∈ files, included selfpath f = true → joinPath f ≠ "__main__.py")
    (hdnodup : (des.map Prod.fst).Nodup)
    (hdisj : ∀ f ∈ files, included selfpath f = true → arcnameOf f ∉ des.map Prod.fst) :
    ∃ es, bundlerRun none files selfpath tagB deps = .ok es
      ∧ (es.map Prod.fst).Nodup := by
  have htree := runTree_eq_filterMap selfpath tagB files hstamp
  refine ⟨files.filterMap (emit selfpath tagB) ++ des, ?_, ?_⟩
  · simp [bundlerRun, ensureDistDir, htree, hdeps]
  · rw [List.map_append, filterMap_emit_map_fst selfpath tagB files hstamp]
    have hpair : (files.filter (fun f => included selfpath f)).Pairwise
        (fun f g => arcnameOf f ≠ arcnameOf g) := by
      have hcomb := hpaths.and hmain
      refine List.Pairwise.imp_of_mem ?_ hcomb
      intro f g hf hg hfg
      have hfm := List.mem_filter.mp hf
      have hgm := List.mem_filter.mp hg
      by_cases hf1 : f.name = "__main__.py"
      · by_cases hg1 : g.name = "__main__.py"
        · exact absurd ⟨hf1, hg1⟩ hfg.2
        · have hgarc : arcnameOf g = joinPath g := by simp [arcnameOf, hg1]
          have hfarc : arcnameOf f = "__main__.py" := by simp [arcnameOf, hf1]
          rw [hfarc, hgarc]
          exact fun hc => hnotmain g hgm.1 hgm.2 hc.symm
      · by_cases hg1 : g.name = "__main__.py"
        · have hfarc : arcnameOf f = joinPath f := by simp [arcnameOf, hf1]
          have hgarc : arcnameOf g = "__main__.py" := by simp [arcnameOf, hg1]
          rw [hfarc, hgarc]
          exact hnotmain f hfm.1 hfm.2
        · have hfarc : arcnameOf f = joinPath f := by simp [arcnameOf, hf1]
          have hgarc : arcnameOf g = joinPath g := by simp [arcnameOf, hg1]
          rw [hfarc, hgarc]
          exact hfg.1
    have hprim : ((files.filter (fun f => included selfpath f)).map arcnameOf).Nodup :=
      List.pairwise_map.mpr hpair
    refine hprim.append hdnodup (List.disjoint_left.mpr ?_)
    intro a ha
    rcases List.mem_map.mp ha with ⟨f, hfmem, hfeq⟩
    have hfm := List.mem_filter.mp hfmem
    rw [← hfeq]
    exact hdisj f hfm.1 hfm.2

/-- C8 witness: a small run (one source file, one entry point, one
dependency) whose archive paths are distinct, via the amended theorem. -/
theorem C8_witness :
    ∃ es, bundlerRun none
        [⟨"dbsake", "cli.py", [1]⟩, ⟨"dbsake", "__main__.py", [2]⟩]
        "dbsake/distutils_ext.py" []
        [(⟨"a", [65], []⟩, ([] : List String))] = .ok es
      ∧ (es.map Prod.fst).Nodup :=
  C8_unique_paths
    [⟨"dbsake", "cli.py", [1]⟩, ⟨"dbsake", "__main__.py", [2]⟩]
    "dbsake/distutils_ext.py" [] [(⟨"a", [65], []⟩, ([] : List String))]
    [("a/__init__.py", [65])]
    (by decide) (by decide) (by decide) (by decide) (by decide) (by decide)
    (by decide)

end Dbsake
